import Mathlib

/-!
  Verification of the mr-tank real-time synchronization layer.

  Shallow embedding of the data-sync facade (src/firebase.js), the speech
  queue and auto-observation logic (src/unnamed/part_001), and the
  watchlist logic (src/api/tts.js).  JavaScript arrays become Lean lists
  (push appends at the back, unshift prepends at the front, shift drops
  the front, pop drops the back, slice(0, n) is take n), objects become
  structures, and the asynchronous facade calls become explicit
  state-passing functions.  Remote (Firestore) collections are modelled
  as the shared value every client reads; the localStorage fallback is a
  separate per-browser store.
-/

namespace MrTank

/-! ## Global dedup ledger ("spoken news", src/firebase.js lines 441-485)

    Local fallback: a JSON array under the localStorage key
    tank_spoken_news.  markNewsAsSpoken pushes the id if absent and, when
    the array exceeds 500 entries, shifts the oldest off the front.
    Remote: a spoken_news collection keyed by the news id; marking sets
    the document, checking reads doc.exists. -/

/-- Embeds the localStorage branch of markNewsAsSpoken: push the id if it
is not yet in the ledger, then evict the front entry if the ledger
exceeds 500 entries. -/
def markSpokenLocal (newsId : String) (spoken : List String) : List String :=
  if newsId ∈ spoken then spoken
  else
    let pushed := spoken ++ [newsId]
    if 500 < pushed.length then pushed.tail else pushed

/-- Embeds the localStorage branch of wasNewsSpoken: array membership. -/
def wasSpokenLocal (newsId : String) (spoken : List String) : Bool :=
  spoken.contains newsId

/-- Embeds the Firestore branch of markNewsAsSpoken: setting the document
spoken_news/newsId.  The collection is modelled by the set of document
ids present; set is idempotent. -/
def markSpokenRemote (newsId : String) (store : List String) : List String :=
  if newsId ∈ store then store else newsId :: store

/-- Embeds the Firestore branch of wasNewsSpoken: doc.exists on
spoken_news/newsId. -/
def wasSpokenRemote (newsId : String) (store : List String) : Bool :=
  store.contains newsId

/-- A sequence of markNewsAsSpoken calls against the shared remote store
(issued by any clients, in any interleaving the store serializes). -/
def applyMarksRemote (ids : List String) (store : List String) : List String :=
  ids.foldl (fun s i => markSpokenRemote i s) store

/-- A sequence of markNewsAsSpoken calls against one local ledger. -/
def applyMarksLocal (ids : List String) (spoken : List String) : List String :=
  ids.foldl (fun s i => markSpokenLocal i s) spoken

/-! ## Watchlist (src/api/tts.js lines 944-961)

    addToWatchlist uppercases the symbol, skips it when already present,
    otherwise unshifts it and pops the back entry when the list exceeds
    20. -/

/-- Embeds addToWatchlist acting on the STATE.watchlist array. -/
def addToWatchlist (symbol : String) (watchlist : List String) : List String :=
  let upperSymbol := symbol.toUpper
  if upperSymbol ∈ watchlist then watchlist
  else
    let unshifted := upperSymbol :: watchlist
    if 20 < unshifted.length then unshifted.dropLast else unshifted

/-! ## Claim C1: spoken markers persist -/

/-- Helper: ids already in the remote spoken_news collection stay there
under any further marks. -/
theorem mem_applyMarksRemote (id : String) :
    ∀ (ms store : List String), id ∈ store → id ∈ applyMarksRemote ms store := by
  intro ms
  induction ms with
  | nil =>
    intro store h
    exact h
  | cons m ms ih =>
    intro store h
    have hstep : applyMarksRemote (m :: ms) store
        = applyMarksRemote ms (markSpokenRemote m store) := rfl
    rw [hstep]
    apply ih
    rw [markSpokenRemote]
    split
    · exact h
    · exact List.mem_cons_of_mem _ h

/-- Helper: an id decomposed as front ++ id :: back survives any further
sequence of local marks whose fresh ids, counted together with the
entries behind id, stay below the 500-entry cap.  Entries behind id
(inserted after it) are never evicted before id is; each fresh insertion
either consumes cap headroom or evicts one front entry. -/
theorem spoken_persists_aux (id : String) :
    ∀ (ms front back : List String),
      front.length + back.length < 500 →
      (ms.toFinset \ (id :: back).toFinset).card + back.length < 500 →
      id ∈ applyMarksLocal ms (front ++ id :: back) := by
  intro ms
  induction ms with
  | nil =>
    intro front back _ _
    simp [applyMarksLocal]
  | cons m ms ih =>
    intro front back hlen hcard
    have hstep : applyMarksLocal (m :: ms) (front ++ id :: back)
        = applyMarksLocal ms (markSpokenLocal m (front ++ id :: back)) := rfl
    rw [hstep]
    by_cases hm : m ∈ front ++ id :: back
    · rw [markSpokenLocal, if_pos hm]
      apply ih front back hlen
      have hsub : ms.toFinset \ (id :: back).toFinset ⊆ (m :: ms).toFinset \ (id :: back).toFinset := by
        apply Finset.sdiff_subset_sdiff
        · simp only [List.toFinset_cons]
          exact Finset.subset_insert m ms.toFinset
        · exact Finset.Subset.refl _
      have := Finset.card_le_card hsub
      omega
    · have hmback : m ∉ (id :: back).toFinset := by
        simp only [List.toFinset_cons, Finset.mem_insert, List.mem_toFinset]
        intro hc
        apply hm
        rcases hc with hc | hc
        · rw [hc]
          exact List.mem_append_right _ (List.mem_cons_self _ _)
        · exact List.mem_append_right _ (List.mem_cons_of_mem _ hc)
      have hmem : m ∈ (m :: ms).toFinset \ (id :: back).toFinset := by
        refine Finset.mem_sdiff.mpr ⟨?_, hmback⟩
        simp
      have hsub2 : ms.toFinset \ (id :: (back ++ [m])).toFinset ⊆
          ((m :: ms).toFinset \ (id :: back).toFinset).erase m := by
        intro x hx
        rw [Finset.mem_sdiff] at hx
        obtain ⟨hx1, hx2⟩ := hx
        rw [List.mem_toFinset] at hx1 hx2
        rw [Finset.mem_erase]
        constructor
        · intro hxm
          apply hx2
          rw [hxm]
          exact List.mem_cons_of_mem _ (List.mem_append_right _ (List.mem_cons_self _ _))
        · rw [Finset.mem_sdiff, List.mem_toFinset, List.mem_toFinset]
          constructor
          · exact List.mem_cons_of_mem _ hx1
          · intro hc
            apply hx2
            rcases List.mem_cons.mp hc with hc | hc
            · rw [hc]
              exact List.mem_cons_self _ _
            · exact List.mem_cons_of_mem _ (List.mem_append_left _ hc)
      have hcard2 : (ms.toFinset \ (id :: (back ++ [m])).toFinset).card + 1 ≤
          ((m :: ms).toFinset \ (id :: back).toFinset).card := by
        have h1 := Finset.card_le_card hsub2
        have h2 := Finset.card_erase_of_mem hmem
        have h3 : 1 ≤ ((m :: ms).toFinset \ (id :: back).toFinset).card :=
          Finset.card_pos.mpr ⟨m, hmem⟩
        omega
      have hlback : (back ++ [m]).length = back.length + 1 := by simp
      rw [markSpokenLocal, if_neg hm]
      simp only []
      by_cases hfull : 500 < ((front ++ id :: back) ++ [m]).length
      · have hlen500 : front.length + back.length + 1 = 500 := by
          have : ((front ++ id :: back) ++ [m]).length
              = front.length + back.length + 2 := by
            simp
            omega
          omega
        have hfront : front ≠ [] := by
          intro hnil
          rw [hnil] at hlen500
          simp at hlen500
          omega
        obtain ⟨f0, front1, rfl⟩ := List.exists_cons_of_ne_nil hfront
        rw [if_pos hfull]
        have htail : (((f0 :: front1) ++ id :: back) ++ [m]).tail
            = front1 ++ id :: (back ++ [m]) := by
          simp
        rw [htail]
        have hlf : (f0 :: front1).length = front1.length + 1 := by simp
        apply ih front1 (back ++ [m])
        · rw [hlback]
          omega
        · rw [hlback]
          omega
      · rw [if_neg hfull]
        have hassoc : (front ++ id :: back) ++ [m] = front ++ id :: (back ++ [m]) := by
          simp
        rw [hassoc]
        have hnf : front.length + back.length + 2 ≤ 500 := by
          have : ((front ++ id :: back) ++ [m]).length
              = front.length + back.length + 2 := by
            simp
            omega
          omega
        apply ih front (back ++ [m])
        · rw [hlback]
          omega
        · rw [hlback]
          omega

/-- Claim C1: once markNewsAsSpoken(id) has completed, every subsequent
wasNewsSpoken(id) call returns true.  Remote path: the marker survives
any further sequence of marks issued through the shared backing store,
so a second client sharing that store also reads true.  Local-fallback
path: starting from a ledger within its 500-entry cap that does not yet
hold the id, the marker survives every further sequence of marks
containing at most 499 distinct ids, i.e. at least until 500 further
distinct ids have been marked; eviction then proceeds oldest-first. -/
theorem C1_spoken_marker_persists :
    (∀ (store : List String) (id : String) (ms : List String),
      wasSpokenRemote id (applyMarksRemote ms (markSpokenRemote id store)) = true)
    ∧
    (∀ (ledger : List String) (id : String) (ms : List String),
      id ∉ ledger → ledger.length ≤ 500 → ms.toFinset.card ≤ 499 →
      wasSpokenLocal id (applyMarksLocal ms (markSpokenLocal id ledger)) = true) := by
  constructor
  · intro store id ms
    have hmem : id ∈ markSpokenRemote id store := by
      rw [markSpokenRemote]
      split
      · assumption
      · exact List.mem_cons_self _ _
    have := mem_applyMarksRemote id ms _ hmem
    simpa [wasSpokenRemote] using this
  · intro ledger id ms hid hlen hms
    have hcard : (ms.toFinset \ (id :: ([] : List String)).toFinset).card + ([] : List String).length < 500 := by
      have hsub : ms.toFinset \ (id :: ([] : List String)).toFinset ⊆ ms.toFinset :=
        Finset.sdiff_subset
      have := Finset.card_le_card hsub
      simp only [List.length_nil]
      omega
    have hmark : id ∈ applyMarksLocal ms (markSpokenLocal id ledger) := by
      rw [markSpokenLocal, if_neg hid]
      simp only []
      by_cases hfull : 500 < (ledger ++ [id]).length
      · have hlen500 : ledger.length = 500 := by
          have : (ledger ++ [id]).length = ledger.length + 1 := by simp
          omega
        have hnil : ledger ≠ [] := by
          intro hc
          rw [hc] at hlen500
          simp at hlen500
        obtain ⟨l0, ledger1, rfl⟩ := List.exists_cons_of_ne_nil hnil
        rw [if_pos hfull]
        have htail : ((l0 :: ledger1) ++ [id]).tail = ledger1 ++ id :: [] := by
          simp
        rw [htail]
        apply spoken_persists_aux id ms ledger1 []
        · simp only [List.length_cons, List.length_nil] at hlen500 ⊢
          omega
        · exact hcard
      · rw [if_neg hfull]
        have heq : ledger ++ [id] = ledger ++ id :: [] := rfl
        rw [heq]
        apply spoken_persists_aux id ms ledger []
        · simp only [List.length_append, List.length_cons, List.length_nil] at hfull ⊢
          omega
        · exact hcard
    simpa [wasSpokenLocal] using hmark

/-- Witness for C1 at concrete inputs: a fresh id marked into an empty
ledger and two further distinct marks. -/
theorem C1_spoken_marker_persists_witness :
    wasSpokenRemote "n1" (applyMarksRemote ["a", "b"] (markSpokenRemote "n1" [])) = true ∧
    wasSpokenLocal "n1" (applyMarksLocal ["a", "b"] (markSpokenLocal "n1" [])) = true :=
  ⟨C1_spoken_marker_persists.1 [] "n1" ["a", "b"],
   C1_spoken_marker_persists.2 [] "n1" ["a", "b"] (by decide) (by decide) (by decide)⟩

/-- Helper: toNat of Char.ofNat at a valid code point. -/
theorem charOfNat_toNat (n : Nat) (h : n.isValidChar) : (Char.ofNat n).toNat = n := by
  simp [Char.ofNat, h, Char.ofNatAux, Char.toNat, UInt32.toNat]

/-- Helper: ASCII uppercasing of a character is idempotent. -/
theorem charToUpper_idem (c : Char) : (c.toUpper).toUpper = c.toUpper := by
  by_cases h : c.toNat ≥ 97 ∧ c.toNat ≤ 122
  · have hv : Nat.isValidChar (c.toNat - 32) := Or.inl (by omega)
    have ht := charOfNat_toNat (c.toNat - 32) hv
    have h1 : c.toUpper = Char.ofNat (c.toNat - 32) := by
      unfold Char.toUpper
      rw [if_pos h]
    have hn : ¬((Char.ofNat (c.toNat - 32)).toNat ≥ 97 ∧
        (Char.ofNat (c.toNat - 32)).toNat ≤ 122) := by
      rw [ht]
      omega
    rw [h1]
    unfold Char.toUpper
    rw [if_neg hn]
  · have h1 : c.toUpper = c := by
      unfold Char.toUpper
      rw [if_neg h]
    rw [h1, h1]

/-- Helper: uppercasing a string is idempotent. -/
theorem stringToUpper_idem (s : String) : (s.toUpper).toUpper = s.toUpper := by
  simp only [String.toUpper, String.map_eq, List.map_map]
  congr 1
  apply List.map_congr_left
  intro c _
  exact charToUpper_idem c

/-! ## Claim C6: watchlist cap, order, and case-insensitive dedup -/

/-- Invariant maintained by addToWatchlist on STATE.watchlist: at most 20
entries, no two entries equal under case-insensitive comparison, and
every entry already uppercased (entries only enter through
addToWatchlist, which uppercases them). -/
def WatchlistInv (wl : List String) : Prop :=
  wl.length ≤ 20 ∧ (wl.map String.toUpper).Nodup ∧ ∀ s ∈ wl, s.toUpper = s

/-- Claim C6: every insertion preserves the watchlist invariant (at most
20 symbols, no case-insensitive duplicates, newest-first order by
prepending); inserting a 21st distinct symbol evicts the oldest (back)
entry; inserting a symbol already present in any letter case leaves the
watchlist unchanged. -/
theorem C6_watchlist_cap_dedup :
    ∀ (wl : List String) (symbol : String), WatchlistInv wl →
      (WatchlistInv (addToWatchlist symbol wl)
        ∧ (wl.length = 20 → symbol.toUpper ∉ wl →
            addToWatchlist symbol wl = symbol.toUpper :: wl.dropLast)
        ∧ ((∃ e ∈ wl, e.toUpper = symbol.toUpper) → addToWatchlist symbol wl = wl)) := by
  intro wl symbol hinv
  obtain ⟨hlen, hnodup, hupper⟩ := hinv
  by_cases hmem : symbol.toUpper ∈ wl
  · have heq : addToWatchlist symbol wl = wl := by
      rw [addToWatchlist]
      simp only [hmem, if_true]
    rw [heq]
    exact ⟨⟨hlen, hnodup, hupper⟩, fun _ habs => absurd hmem habs, fun _ => rfl⟩
  · have hmapfresh : symbol.toUpper ∉ wl.map String.toUpper := by
      intro hc
      obtain ⟨e, he, heq⟩ := List.mem_map.mp hc
      rw [hupper e he] at heq
      rw [heq] at he
      exact hmem he
    have hconsmap : (symbol.toUpper :: wl).map String.toUpper
        = symbol.toUpper :: wl.map String.toUpper := by
      simp [stringToUpper_idem]
    have hconsnodup : ((symbol.toUpper :: wl).map String.toUpper).Nodup := by
      rw [hconsmap]
      exact List.nodup_cons.mpr ⟨hmapfresh, hnodup⟩
    have hconsupper : ∀ s ∈ symbol.toUpper :: wl, s.toUpper = s := by
      intro s hs
      rcases List.mem_cons.mp hs with hs | hs
      · rw [hs]
        exact stringToUpper_idem symbol
      · exact hupper s hs
    rw [addToWatchlist]
    simp only [hmem, if_false]
    refine ⟨?_, ?_, ?_⟩
    · by_cases hfull : 20 < (symbol.toUpper :: wl).length
      · simp only [hfull, if_true]
        refine ⟨?_, ?_, ?_⟩
        · rw [List.length_dropLast]
          simp only [List.length_cons]
          omega
        · exact List.Nodup.sublist
            (List.Sublist.map String.toUpper (List.dropLast_sublist _)) hconsnodup
        · intro s hs
          exact hconsupper s (List.dropLast_subset _ hs)
      · simp only [hfull, if_false]
        refine ⟨?_, hconsnodup, hconsupper⟩
        simp only [List.length_cons] at hfull ⊢
        omega
    · intro h20 _
      have hfull : 20 < (symbol.toUpper :: wl).length := by
        simp only [List.length_cons, h20]
        omega
      simp only [hfull, if_true]
      apply List.dropLast_cons_of_ne_nil
      intro hc
      rw [hc] at h20
      simp at h20
    · intro ⟨e, he, heq⟩
      exfalso
      apply hmem
      rw [← heq, hupper e he]
      exact he

/-- Witness for C6 at the empty watchlist. -/
theorem C6_watchlist_cap_dedup_witness :
    WatchlistInv (addToWatchlist "eth" [])
      ∧ (([] : List String).length = 20 → "eth".toUpper ∉ ([] : List String) →
          addToWatchlist "eth" [] = "eth".toUpper :: ([] : List String).dropLast)
      ∧ ((∃ e ∈ ([] : List String), String.toUpper e = "eth".toUpper) →
          addToWatchlist "eth" [] = []) :=
  C6_watchlist_cap_dedup [] "eth"
    ⟨by decide, List.nodup_nil, by intro s hs; cases hs⟩

/-! ## News collection writes (src/firebase.js lines 170-204 and 580-595)

    saveNewsToFirebase checks, for each incoming item, whether the
    committed collection already holds an item with the same title
    (where clause on title only) and stages fresh ones into a batch that
    commits after the loop; saveNewsToLocal checks the same title-only
    condition against the localStorage array it is mutating, unshifts
    fresh items, and persists the first 100 entries. -/

structure NewsItem where
  title : String
  content : String
  source : String
  url : String
  timestamp : Nat
deriving DecidableEq

/-- Embeds the news.timestamp = news.timestamp || Date.now() fixup (a
missing or zero timestamp is replaced by the current time). -/
def stampTimestamp (now : Nat) (news : NewsItem) : NewsItem :=
  if news.timestamp = 0 then { news with timestamp := now } else news

/-- Embeds saveNewsToLocal: iterate over the incoming array, skip items
whose title is already in the (mutating) stored array, unshift the rest,
then keep only the first 100 entries. -/
def saveNewsToLocal (newsArray : List NewsItem) (existing : List NewsItem) (now : Nat) : List NewsItem :=
  (newsArray.foldl
    (fun acc news =>
      if acc.any (fun n => n.title == news.title) then acc
      else stampTimestamp now news :: acc)
    existing).take 100

/-- Embeds the Firestore branch of saveNewsToFirebase: each incoming item
is checked by a title-only query against the collection as committed
before the call (the batch is not visible to the query), staged if
fresh, and the whole batch is appended on commit. -/
def saveNewsToFirebase (newsArray : List NewsItem) (collection : List NewsItem) (now : Nat) : List NewsItem :=
  collection ++
    (newsArray.foldl
      (fun staged news =>
        if collection.any (fun n => n.title == news.title) then staged
        else staged ++ [stampTimestamp now news])
      [])

/-- Helper: stamping a timestamp does not change the title. -/
theorem title_stamp (now : Nat) (n : NewsItem) : (stampTimestamp now n).title = n.title := by
  rw [stampTimestamp]
  split <;> rfl

/-! ## Claim C4: news dedup is by title, not by (title, source) -/

/-- Counterexample to C4: the dedup key is the title alone, not the
(title, source) pair, and on the remote path the title check does not
see items staged earlier in the same batched call.  Writing two items
with the same title but different sources leaves one entry where the
claim demands one per distinct pair (two); writing the same item twice
in one remote batch inserts it twice. -/
theorem C4_counterexample :
    (saveNewsToLocal [⟨"BTC rallies", "", "Y", "", 2⟩]
        (saveNewsToLocal [⟨"BTC rallies", "", "X", "", 1⟩] [] 10) 20).length = 1
    ∧ (⟨"BTC rallies", "", "X", "", 1⟩ : NewsItem).source ≠
        (⟨"BTC rallies", "", "Y", "", 2⟩ : NewsItem).source
    ∧ (saveNewsToFirebase
        [⟨"BTC rallies", "", "X", "", 1⟩, ⟨"BTC rallies", "", "X", "", 1⟩] [] 5).length = 2 := by
  refine ⟨by decide, by decide, by decide⟩

/-- Helper: the saveNewsToLocal fold preserves distinctness of titles. -/
theorem saveNewsLocal_fold_nodup (now : Nat) :
    ∀ (arr acc : List NewsItem),
      (acc.map NewsItem.title).Nodup →
      ((arr.foldl
        (fun acc news =>
          if acc.any (fun n => n.title == news.title) then acc
          else stampTimestamp now news :: acc)
        acc).map NewsItem.title).Nodup := by
  intro arr
  induction arr with
  | nil =>
    intro acc h
    exact h
  | cons a arr ih =>
    intro acc h
    rw [List.foldl_cons]
    apply ih
    by_cases hmatch : acc.any (fun n => n.title == a.title)
    · simpa [hmatch] using h
    · simp only [hmatch, if_false, List.map_cons, title_stamp]
      refine List.nodup_cons.mpr ⟨?_, h⟩
      intro hc
      obtain ⟨e, he, heq⟩ := List.mem_map.mp hc
      apply hmatch
      rw [List.any_eq_true]
      refine ⟨e, he, ?_⟩
      rw [heq, title_stamp]
      exact beq_self_eq_true _

/-- Helper: the remote staging fold is an append of the title-fresh items. -/
theorem saveNewsRemote_fold_eq (now : Nat) (coll : List NewsItem) :
    ∀ (arr staged : List NewsItem),
      (arr.foldl
        (fun staged news =>
          if coll.any (fun n => n.title == news.title) then staged
          else staged ++ [stampTimestamp now news])
        staged)
      = staged ++ (arr.filter (fun news => !coll.any (fun n => n.title == news.title))).map (stampTimestamp now) := by
  intro arr
  induction arr with
  | nil =>
    intro staged
    simp
  | cons a arr ih =>
    intro staged
    rw [List.foldl_cons]
    by_cases hmatch : coll.any (fun n => n.title == a.title)
    · rw [if_pos hmatch]
      rw [ih staged]
      congr 1
      rw [List.filter_cons]
      simp [hmatch]
    · rw [if_neg hmatch]
      rw [ih (staged ++ [stampTimestamp now a])]
      rw [List.filter_cons]
      simp only [hmatch, Bool.not_false, if_true, List.map_cons, List.append_assoc]
      rfl

/-- Claim C4 as amended: write-time dedup is by title alone.  On the
local path any write preserves title-distinctness of the stored array,
and a batch whose titles all match existing entries inserts nothing
(keeping only the 100-entry window).  On the remote path the same holds,
but title-distinctness of the incoming batch itself must be assumed,
because the title check runs only against the pre-call collection. -/
theorem C4_news_dedup_by_title :
    (∀ (arr existing : List NewsItem) (now : Nat),
      (existing.map NewsItem.title).Nodup →
      ((saveNewsToLocal arr existing now).map NewsItem.title).Nodup)
    ∧ (∀ (arr existing : List NewsItem) (now : Nat),
      (∀ n ∈ arr, ∃ e ∈ existing, e.title = n.title) →
      saveNewsToLocal arr existing now = existing.take 100)
    ∧ (∀ (arr coll : List NewsItem) (now : Nat),
      (coll.map NewsItem.title).Nodup → (arr.map NewsItem.title).Nodup →
      ((saveNewsToFirebase arr coll now).map NewsItem.title).Nodup)
    ∧ (∀ (arr coll : List NewsItem) (now : Nat),
      (∀ n ∈ arr, ∃ e ∈ coll, e.title = n.title) →
      saveNewsToFirebase arr coll now = coll) := by
  refine ⟨?_, ?_, ?_, ?_⟩
  · intro arr existing now h
    rw [saveNewsToLocal]
    exact List.Nodup.sublist
      (List.Sublist.map NewsItem.title (List.take_sublist _ _))
      (saveNewsLocal_fold_nodup now arr existing h)
  · intro arr existing now h
    rw [saveNewsToLocal]
    congr 1
    induction arr with
    | nil => rfl
    | cons a arr ih =>
      rw [List.foldl_cons]
      have hmatch : existing.any (fun n => n.title == a.title) = true := by
        rw [List.any_eq_true]
        obtain ⟨e, he, heq⟩ := h a (List.mem_cons_self _ _)
        refine ⟨e, he, ?_⟩
        rw [heq]
        exact beq_self_eq_true _
      rw [if_pos hmatch]
      exact ih (fun n hn => h n (List.mem_cons_of_mem _ hn))
  · intro arr coll now hcoll harr
    rw [saveNewsToFirebase, saveNewsRemote_fold_eq, List.nil_append, List.map_append]
    rw [List.nodup_append]
    refine ⟨hcoll, ?_, ?_⟩
    · rw [List.map_map]
      have hsame : List.map (NewsItem.title ∘ stampTimestamp now)
          (arr.filter (fun news => !coll.any (fun n => n.title == news.title)))
          = List.map NewsItem.title (arr.filter (fun news => !coll.any (fun n => n.title == news.title))) := by
        apply List.map_congr_left
        intro x _
        simp [Function.comp, title_stamp]
      rw [hsame]
      exact List.Nodup.sublist (List.Sublist.map _ (List.filter_sublist _)) harr
    · intro t ht hc
      rw [List.map_map] at hc
      obtain ⟨e, he, heq⟩ := List.mem_map.mp hc
      have he2 := List.mem_filter.mp he
      obtain ⟨e2, he2m, heq2⟩ := List.mem_map.mp ht
      have hany : coll.any (fun n => n.title == e.title) = true := by
        rw [List.any_eq_true]
        refine ⟨e2, he2m, ?_⟩
        have heq3 : (NewsItem.title ∘ stampTimestamp now) e = e.title := by
          simp [Function.comp, title_stamp]
        rw [heq3] at heq
        rw [heq2, heq]
        exact beq_self_eq_true _
      rw [hany] at he2
      simp at he2
  · intro arr coll now h
    rw [saveNewsToFirebase, saveNewsRemote_fold_eq, List.nil_append]
    have hfilter : arr.filter (fun news => !coll.any (fun n => n.title == news.title)) = [] := by
      rw [List.filter_eq_nil_iff]
      intro n hn
      obtain ⟨e, he, heq⟩ := h n hn
      have : coll.any (fun m => m.title == n.title) = true := by
        rw [List.any_eq_true]
        refine ⟨e, he, ?_⟩
        rw [heq]
        exact beq_self_eq_true _
      simp [this]
    rw [hfilter]
    simp

/-- Witness for C4 as amended at concrete one-item collections. -/
theorem C4_news_dedup_by_title_witness :
    ((saveNewsToLocal [⟨"A", "", "S", "", 1⟩] [⟨"B", "", "S", "", 2⟩] 9).map NewsItem.title).Nodup
    ∧ saveNewsToLocal [⟨"B", "", "S2", "", 3⟩] [⟨"B", "", "S", "", 2⟩] 9
        = ([⟨"B", "", "S", "", 2⟩] : List NewsItem).take 100
    ∧ ((saveNewsToFirebase [⟨"A", "", "S", "", 1⟩] [⟨"B", "", "S", "", 2⟩] 9).map NewsItem.title).Nodup
    ∧ saveNewsToFirebase [⟨"B", "", "S2", "", 3⟩] [⟨"B", "", "S", "", 2⟩] 9
        = [⟨"B", "", "S", "", 2⟩] :=
  ⟨C4_news_dedup_by_title.1 [⟨"A", "", "S", "", 1⟩] [⟨"B", "", "S", "", 2⟩] 9 (by decide),
   C4_news_dedup_by_title.2.1 [⟨"B", "", "S2", "", 3⟩] [⟨"B", "", "S", "", 2⟩] 9 (by decide),
   C4_news_dedup_by_title.2.2.1 [⟨"A", "", "S", "", 1⟩] [⟨"B", "", "S", "", 2⟩] 9 (by decide) (by decide),
   C4_news_dedup_by_title.2.2.2 [⟨"B", "", "S2", "", 3⟩] [⟨"B", "", "S", "", 2⟩] 9 (by decide)⟩

/-! ## Status and market writes (src/firebase.js lines 274-290, 325-347,
    611-622)

    The remote paths set the status/current and market/current documents
    wholesale.  The local market path replaces the marketTokens key; the
    local status path sets each of the four arctic* keys only when the
    corresponding field of the written status object is truthy (present
    and non-empty), and stores nothing for mood, health or volatility. -/

structure Status where
  temp : Option String
  ice : Option String
  snow : Option String
  aurora : Option String
  mood : Option String
  health : Option String
  volatility : Option String
deriving DecidableEq

structure StatusDoc where
  temp : Option String
  ice : Option String
  snow : Option String
  aurora : Option String
  mood : Option String
  health : Option String
  volatility : Option String
  updatedAt : Nat
deriving DecidableEq

structure TokenQuote where
  symbol : String
  name : String
  priceUsd : Int
  change24hPct : Int
  volumeUsd : Int
  liquidityUsd : Int
  chain : String
  sourceType : String
  url : String
  observedAt : Nat
deriving DecidableEq

structure MarketDoc where
  tokens : List TokenQuote
  updatedAt : Nat
deriving DecidableEq

/-- The four arctic* localStorage keys written by saveStatusToLocal. -/
structure LocalStatusStore where
  arcticTemp : Option String
  arcticIce : Option String
  arcticSnow : Option String
  arcticAurora : Option String
deriving DecidableEq

/-- JavaScript truthiness of a possibly-missing string value: absent and
empty strings are falsy. -/
def truthy : Option String → Bool
  | none => false
  | some s => !(s == "")

/-- Embeds the Firestore branch of saveStatusToFirebase: set replaces the
status/current document with exactly the written fields plus a fresh
updatedAt. -/
def saveStatusToFirebase (status : Status) (now : Nat) (_store : Option StatusDoc) : Option StatusDoc :=
  some { temp := status.temp, ice := status.ice, snow := status.snow,
         aurora := status.aurora, mood := status.mood, health := status.health,
         volatility := status.volatility, updatedAt := now }

/-- Embeds saveStatusToLocal: each arctic* key is overwritten only when
the corresponding written field is truthy; otherwise the stored value is
kept. -/
def saveStatusToLocal (status : Status) (store : LocalStatusStore) : LocalStatusStore :=
  { arcticTemp := if truthy status.temp then status.temp else store.arcticTemp,
    arcticIce := if truthy status.ice then status.ice else store.arcticIce,
    arcticSnow := if truthy status.snow then status.snow else store.arcticSnow,
    arcticAurora := if truthy status.aurora then status.aurora else store.arcticAurora }

/-- Embeds the Firestore branch of saveMarketToFirebase: set replaces the
market/current document. -/
def saveMarketToFirebase (tokens : List TokenQuote) (now : Nat) (_store : Option MarketDoc) : Option MarketDoc :=
  some { tokens := tokens, updatedAt := now }

/-- Embeds saveMarketToLocal: the marketTokens key is replaced wholesale. -/
def saveMarketToLocal (tokens : List TokenQuote) (_store : List TokenQuote) : List TokenQuote :=
  tokens

/-! ## Claim C9: singleton writes as full replacement -/

/-- Counterexample to C9: the local-fallback status write is a merge, not
a replacement.  Writing a status that carries only a temperature over a
store holding ice 85 keeps the old ice value, and the same write over a
store holding ice 90 gives a different result, so fields of the previous
record survive the write. -/
theorem C9_counterexample :
    (saveStatusToLocal ⟨some "-20", none, none, none, none, none, none⟩
        ⟨some "-15", some "85", some "HEAVY", some "VISIBLE"⟩).arcticIce = some "85"
    ∧ saveStatusToLocal ⟨some "-20", none, none, none, none, none, none⟩
        ⟨some "-15", some "85", some "HEAVY", some "VISIBLE"⟩
      ≠ saveStatusToLocal ⟨some "-20", none, none, none, none, none, none⟩
        ⟨some "-15", some "90", some "HEAVY", some "VISIBLE"⟩ := by
  refine ⟨by decide, by decide⟩

/-- Claim C9 as amended: the remote status write, the remote market write
and the local market write fully replace the stored record (the result
never depends on the previous record); the local-fallback status write
overwrites only those of the four weather fields that are present and
non-empty in the written value, so it is independent of the previous
record only when all four are truthy (and it never stores mood, health
or volatility at all). -/
theorem C9_singleton_replacement :
    (∀ (status : Status) (now : Nat) (s1 s2 : Option StatusDoc),
      saveStatusToFirebase status now s1 = saveStatusToFirebase status now s2)
    ∧ (∀ (tokens : List TokenQuote) (now : Nat) (m1 m2 : Option MarketDoc),
      saveMarketToFirebase tokens now m1 = saveMarketToFirebase tokens now m2)
    ∧ (∀ (tokens : List TokenQuote) (l1 l2 : List TokenQuote),
      saveMarketToLocal tokens l1 = saveMarketToLocal tokens l2)
    ∧ (∀ (status : Status) (st1 st2 : LocalStatusStore),
      truthy status.temp = true → truthy status.ice = true →
      truthy status.snow = true → truthy status.aurora = true →
      saveStatusToLocal status st1 = saveStatusToLocal status st2) := by
  refine ⟨fun _ _ _ _ => rfl, fun _ _ _ _ => rfl, fun _ _ _ => rfl, ?_⟩
  intro status st1 st2 ht hi hs ha
  rw [saveStatusToLocal, saveStatusToLocal, ht, hi, hs, ha]
  simp

/-- Witness for C9 as amended at a concrete all-truthy status and two
distinct prior stores. -/
theorem C9_singleton_replacement_witness :
    saveStatusToFirebase ⟨some "-20", some "85", some "HEAVY", some "VISIBLE", none, none, none⟩ 7
        (some ⟨none, none, none, none, none, none, none, 0⟩)
      = saveStatusToFirebase ⟨some "-20", some "85", some "HEAVY", some "VISIBLE", none, none, none⟩ 7 none
    ∧ saveMarketToFirebase [] 7 (some ⟨[], 0⟩) = saveMarketToFirebase [] 7 none
    ∧ saveMarketToLocal [] [] = saveMarketToLocal [] []
    ∧ saveStatusToLocal ⟨some "-20", some "85", some "HEAVY", some "VISIBLE", none, none, none⟩
        ⟨some "a", some "b", some "c", some "d"⟩
      = saveStatusToLocal ⟨some "-20", some "85", some "HEAVY", some "VISIBLE", none, none, none⟩
        ⟨none, none, none, none⟩ :=
  ⟨C9_singleton_replacement.1 _ 7 _ none,
   C9_singleton_replacement.2.1 [] 7 _ none,
   C9_singleton_replacement.2.2.1 [] [] [],
   C9_singleton_replacement.2.2.2 ⟨some "-20", some "85", some "HEAVY", some "VISIBLE", none, none, none⟩
     ⟨some "a", some "b", some "c", some "d"⟩ ⟨none, none, none, none⟩
     (by decide) (by decide) (by decide) (by decide)⟩

/-! ## Sync facade write operations with failure injection
    (src/firebase.js lines 59-75, 148-161, 170-204, 274-290, 325-347,
    390-404, 441-464, 517-534, 564-630)

    Each exported write operation first routes on Firebase availability
    and, inside the try block, on whether the remote write throws.  The
    embedding makes the thrown-error case an explicit remoteWriteFails
    flag and passes the whole world (remote collections plus local
    stores) explicitly.  Every operation is total: no error escapes any
    of them, matching the catch-all try/catch in the source. -/

structure KnowledgeDoc where
  id : String
  title : String
  content : String
  ktype : String
  source : String
  timestamp : Nat
  auto : Bool
deriving DecidableEq

structure Remark where
  text : String
  source : String
  timestamp : Nat
deriving DecidableEq

structure WatchlistDoc where
  symbols : List String
  updatedAt : Nat
deriving DecidableEq

structure SaveResult where
  success : Bool
deriving DecidableEq

/-- Remote collections and localStorage keys visible to the sync facade;
fbAvailable embeds isFirebaseAvailable() and remoteWriteFails embeds a
remote write rejecting inside the try block. -/
structure World where
  fbAvailable : Bool
  remoteWriteFails : Bool
  remoteKnowledge : List KnowledgeDoc
  remoteNews : List NewsItem
  remoteMarket : Option MarketDoc
  remoteStatus : Option StatusDoc
  remoteRemarks : List Remark
  remoteWatchlist : Option WatchlistDoc
  remoteSpoken : List String
  localKnowledge : List KnowledgeDoc
  localNews : List NewsItem
  localMarket : List TokenQuote
  localStatus : LocalStatusStore
  localRemarks : List Remark
  localWatchlist : List String
  localSpoken : List String
deriving DecidableEq

/-- Embeds addKnowledgeToLocal: assign a local_ id and fresh timestamp,
unshift into tank_knowledge_db. -/
def addKnowledgeToLocal (k : KnowledgeDoc) (now : Nat) (w : World) : SaveResult × World :=
  let k2 := { k with id := "local_" ++ toString now, timestamp := now }
  ({ success := true }, { w with localKnowledge := k2 :: w.localKnowledge })

/-- Embeds addKnowledgeToFirebase (exported as FirebaseDB.addKnowledge):
remote add with a server-assigned doc id, falling back to
addKnowledgeToLocal when Firebase is unavailable or the add throws. -/
def syncAddKnowledge (k : KnowledgeDoc) (now : Nat) (freshId : String) (w : World) : SaveResult × World :=
  if !w.fbAvailable then addKnowledgeToLocal k now w
  else
    let k2 := { k with timestamp := now }
    if w.remoteWriteFails then addKnowledgeToLocal k2 now w
    else ({ success := true }, { w with remoteKnowledge := { k2 with id := freshId } :: w.remoteKnowledge })

/-- Embeds deleteKnowledgeFromLocal: filter the stored array by id. -/
def deleteKnowledgeFromLocal (id : String) (w : World) : SaveResult × World :=
  ({ success := true }, { w with localKnowledge := w.localKnowledge.filter (fun k => k.id ≠ id) })

/-- Embeds deleteKnowledgeFromFirebase (FirebaseDB.deleteKnowledge): on a
remote failure it reports success false and performs no local write. -/
def syncDeleteKnowledge (id : String) (w : World) : SaveResult × World :=
  if !w.fbAvailable then deleteKnowledgeFromLocal id w
  else if w.remoteWriteFails then ({ success := false }, w)
  else ({ success := true }, { w with remoteKnowledge := w.remoteKnowledge.filter (fun k => k.id ≠ id) })

/-- Embeds saveNewsToFirebase's routing (FirebaseDB.saveNews): remote
batch write, falling back to saveNewsToLocal on unavailability or a
thrown write. -/
def syncSaveNews (arr : List NewsItem) (now : Nat) (w : World) : SaveResult × World :=
  if !w.fbAvailable then ({ success := true }, { w with localNews := saveNewsToLocal arr w.localNews now })
  else if w.remoteWriteFails then ({ success := true }, { w with localNews := saveNewsToLocal arr w.localNews now })
  else ({ success := true }, { w with remoteNews := saveNewsToFirebase arr w.remoteNews now })

/-- Embeds saveMarketToFirebase's routing (FirebaseDB.saveMarket). -/
def syncSaveMarket (tokens : List TokenQuote) (now : Nat) (w : World) : SaveResult × World :=
  if !w.fbAvailable then ({ success := true }, { w with localMarket := saveMarketToLocal tokens w.localMarket })
  else if w.remoteWriteFails then ({ success := true }, { w with localMarket := saveMarketToLocal tokens w.localMarket })
  else ({ success := true }, { w with remoteMarket := saveMarketToFirebase tokens now w.remoteMarket })

/-- Embeds saveStatusToFirebase's routing (FirebaseDB.saveStatus). -/
def syncSaveStatus (status : Status) (now : Nat) (w : World) : SaveResult × World :=
  if !w.fbAvailable then ({ success := true }, { w with localStatus := saveStatusToLocal status w.localStatus })
  else if w.remoteWriteFails then ({ success := true }, { w with localStatus := saveStatusToLocal status w.localStatus })
  else ({ success := true }, { w with remoteStatus := saveStatusToFirebase status now w.remoteStatus })

/-- Embeds addRemarkToLocal: stamp, unshift, keep the 50 most recent. -/
def addRemarkToLocal (r : Remark) (now : Nat) (w : World) : SaveResult × World :=
  let r2 := { r with timestamp := now }
  ({ success := true }, { w with localRemarks := (r2 :: w.localRemarks).take 50 })

/-- Embeds addRemarkToFirebase (FirebaseDB.addRemark). -/
def syncAddRemark (r : Remark) (now : Nat) (w : World) : SaveResult × World :=
  if !w.fbAvailable then addRemarkToLocal r now w
  else
    let r2 := { r with timestamp := now }
    if w.remoteWriteFails then addRemarkToLocal r2 now w
    else ({ success := true }, { w with remoteRemarks := r2 :: w.remoteRemarks })

/-- Embeds saveWatchlistToFirebase (FirebaseDB.saveWatchlist): on a
thrown remote write it performs the local fallback write but reports
success false. -/
def syncSaveWatchlist (symbols : List String) (now : Nat) (w : World) : SaveResult × World :=
  if !w.fbAvailable then ({ success := true }, { w with localWatchlist := symbols })
  else if w.remoteWriteFails then ({ success := false }, { w with localWatchlist := symbols })
  else ({ success := true }, { w with remoteWatchlist := some { symbols := symbols, updatedAt := now } })

/-- Embeds markNewsAsSpoken (FirebaseDB.markNewsAsSpoken): on a thrown
remote write it reports success false and performs no local write. -/
def syncMarkSpoken (id : String) (w : World) : SaveResult × World :=
  if !w.fbAvailable then ({ success := true }, { w with localSpoken := markSpokenLocal id w.localSpoken })
  else if w.remoteWriteFails then ({ success := false }, w)
  else ({ success := true }, { w with remoteSpoken := markSpokenRemote id w.remoteSpoken })

/-! ## Claim C5: fallback behaviour on remote write failure -/

/-- Concrete world for C5: Firebase reachable but every remote write
throws; the local knowledge store holds one item. -/
def W0 : World :=
  ⟨true, true, [], [], none, none, [], none, [],
   [⟨"k1", "t", "c", "KNOWLEDGE", "s", 1, false⟩], [], [],
   ⟨none, none, none, none⟩, [], [], []⟩

/-- Counterexample to C5: when the remote delete throws,
deleteKnowledgeFromFirebase reports success false and writes nothing to
local persistence (the local store still holds the item), and
markNewsAsSpoken behaves the same way — neither falls back to a
local-persistence write. -/
theorem C5_counterexample :
    syncDeleteKnowledge "k1" W0 = ({ success := false }, W0)
    ∧ syncMarkSpoken "n9" W0 = ({ success := false }, W0) := by
  refine ⟨by decide, by decide⟩

/-- Claim C5 as amended: no sync-facade write operation propagates an
exception (all are total, mirroring the catch-all try/catch); on a
remote write failure, knowledge add, news save, market save, status
save and remark add fall back to a local-persistence write and report
success; watchlist save performs the local fallback write but reports
failure; knowledge delete and mark-spoken perform no local fallback at
all and report failure, leaving the world unchanged. -/
theorem C5_remote_failure_fallback :
    ∀ (w : World), w.fbAvailable = true → w.remoteWriteFails = true →
      (∀ (k : KnowledgeDoc) (now : Nat) (fid : String),
        (syncAddKnowledge k now fid w).1.success = true
        ∧ (syncAddKnowledge k now fid w).2.localKnowledge
            = { k with id := "local_" ++ toString now, timestamp := now } :: w.localKnowledge)
      ∧ (∀ (arr : List NewsItem) (now : Nat),
        (syncSaveNews arr now w).1.success = true
        ∧ (syncSaveNews arr now w).2.localNews = saveNewsToLocal arr w.localNews now)
      ∧ (∀ (tokens : List TokenQuote) (now : Nat),
        (syncSaveMarket tokens now w).1.success = true
        ∧ (syncSaveMarket tokens now w).2.localMarket = tokens)
      ∧ (∀ (status : Status) (now : Nat),
        (syncSaveStatus status now w).1.success = true
        ∧ (syncSaveStatus status now w).2.localStatus = saveStatusToLocal status w.localStatus)
      ∧ (∀ (r : Remark) (now : Nat),
        (syncAddRemark r now w).1.success = true
        ∧ (syncAddRemark r now w).2.localRemarks = ({ r with timestamp := now } :: w.localRemarks).take 50)
      ∧ (∀ (symbols : List String) (now : Nat),
        (syncSaveWatchlist symbols now w).1.success = false
        ∧ (syncSaveWatchlist symbols now w).2.localWatchlist = symbols)
      ∧ (∀ (id : String), syncDeleteKnowledge id w = ({ success := false }, w))
      ∧ (∀ (id : String), syncMarkSpoken id w = ({ success := false }, w)) := by
  intro w hav hfail
  refine ⟨?_, ?_, ?_, ?_, ?_, ?_, ?_, ?_⟩
  · intro k now fid
    constructor <;> simp [syncAddKnowledge, addKnowledgeToLocal, hav, hfail]
  · intro arr now
    constructor <;> simp [syncSaveNews, hav, hfail]
  · intro tokens now
    constructor <;> simp [syncSaveMarket, saveMarketToLocal, hav, hfail]
  · intro status now
    constructor <;> simp [syncSaveStatus, hav, hfail]
  · intro r now
    constructor <;> simp [syncAddRemark, addRemarkToLocal, hav, hfail]
  · intro symbols now
    constructor <;> simp [syncSaveWatchlist, hav, hfail]
  · intro id
    simp [syncDeleteKnowledge, hav, hfail]
  · intro id
    simp [syncMarkSpoken, hav, hfail]

/-- Witness for C5 as amended at the concrete failing world. -/
theorem C5_remote_failure_fallback_witness :
    ((syncAddKnowledge ⟨"", "t2", "c2", "NEWS", "s2", 0, false⟩ 4 "r1" W0).1.success = true
      ∧ (syncAddKnowledge ⟨"", "t2", "c2", "NEWS", "s2", 0, false⟩ 4 "r1" W0).2.localKnowledge
          = ⟨"local_4", "t2", "c2", "NEWS", "s2", 4, false⟩ :: W0.localKnowledge)
    ∧ ((syncSaveWatchlist ["BTC"] 4 W0).1.success = false
      ∧ (syncSaveWatchlist ["BTC"] 4 W0).2.localWatchlist = ["BTC"])
    ∧ syncDeleteKnowledge "k1" W0 = ({ success := false }, W0)
    ∧ syncMarkSpoken "n9" W0 = ({ success := false }, W0) :=
  ⟨(C5_remote_failure_fallback W0 rfl rfl).1 ⟨"", "t2", "c2", "NEWS", "s2", 0, false⟩ 4 "r1",
   (C5_remote_failure_fallback W0 rfl rfl).2.2.2.2.2.1 ["BTC"] 4,
   (C5_remote_failure_fallback W0 rfl rfl).2.2.2.2.2.2.1 "k1",
   (C5_remote_failure_fallback W0 rfl rfl).2.2.2.2.2.2.2 "n9"⟩

/-! ## Auto observations (src/unnamed/part_001 lines 1318-1483)

    generateAutoObservation builds a knowledge entry with id and
    timestamp both taken from Date.now() and auto set, runs
    cleanupAutoObservations over STATE.knowledgeDB, and then saves the
    new entry, which arrives at the front of the timestamp-descending
    knowledge list.  cleanupAutoObservations counts the auto entries
    and, once they reach maxAutoEntries (50), sorts them by ascending
    timestamp and filters out the ids of the oldest overflow. -/

structure KnowledgeItem where
  id : Nat
  ktype : String
  text : String
  url : String
  author : String
  timestamp : Nat
  tags : List String
  auto : Bool
deriving DecidableEq

def maxAutoEntries : Nat := 50

/-- Embeds cleanupAutoObservations acting on STATE.knowledgeDB. -/
def cleanupAutoObservations (db : List KnowledgeItem) : List KnowledgeItem :=
  let autoEntries := db.filter (fun k => k.auto)
  if maxAutoEntries ≤ autoEntries.length then
    let toRemove := autoEntries.length - maxAutoEntries + 1
    let sorted := autoEntries.mergeSort (fun a b => decide (a.timestamp ≤ b.timestamp))
    let idsToRemove := (sorted.take toRemove).map (fun k => k.id)
    db.filter (fun k => !idsToRemove.contains k.id)
  else db


/-- Helper: on a full (50-entry) all-auto knowledge list in strictly
descending timestamp order with distinct ids, cleanup removes exactly
the oldest entry (the back one). -/
theorem cleanup_full (db : List KnowledgeItem)
    (hauto : ∀ k ∈ db, k.auto = true)
    (hdesc : db.Pairwise (fun a b => b.timestamp < a.timestamp))
    (hids : (db.map KnowledgeItem.id).Nodup)
    (hlen : db.length = 50) :
    cleanupAutoObservations db = db.dropLast := by
  have hfilter : db.filter (fun k => k.auto) = db :=
    List.filter_eq_self.mpr (fun k hk => by simp [hauto k hk])
  rw [cleanupAutoObservations]
  simp only [hfilter, hlen, maxAutoEntries]
  rw [if_pos (by omega)]
  have htoRemove : 50 - 50 + 1 = 1 := by omega
  rw [htoRemove]
  have hne : db ≠ [] := by
    intro hc
    rw [hc] at hlen
    simp at hlen
  obtain ⟨init, last, hdb⟩ : ∃ init last, db = init ++ [last] := by
    refine ⟨db.dropLast, db.getLast hne, ?_⟩
    exact (List.dropLast_append_getLast hne).symm
  set sorted := db.mergeSort (fun a b => decide (a.timestamp ≤ b.timestamp)) with hsorted
  have hperm : sorted.Perm db := List.mergeSort_perm db _
  have hslen : sorted.length = 50 := by
    rw [hperm.length_eq, hlen]
  have hsne : sorted ≠ [] := by
    intro hc
    rw [hc] at hslen
    simp at hslen
  obtain ⟨h0, rest, hs⟩ : ∃ h0 rest, sorted = h0 :: rest := by
    cases hsc : sorted with
    | nil => exact absurd hsc hsne
    | cons a l => exact ⟨a, l, rfl⟩
  have hpair : sorted.Pairwise (fun a b => decide (a.timestamp ≤ b.timestamp) = true) :=
    List.sorted_mergeSort
      (by intro a b c h1 h2; simp at h1 h2 ⊢; omega)
      (by intro a b; simp; omega) db
  have hmin : ∀ x ∈ db, h0.timestamp ≤ x.timestamp := by
    intro x hx
    have hx2 : x ∈ sorted := hperm.mem_iff.mpr hx
    rw [hs] at hx2
    rcases List.mem_cons.mp hx2 with hx2 | hx2
    · rw [hx2]
    · rw [hs] at hpair
      have := (List.pairwise_cons.mp hpair).1 x hx2
      simpa using this
  have hh0mem : h0 ∈ db := hperm.mem_iff.mp (by rw [hs]; exact List.mem_cons_self _ _)
  have hh0 : h0 = last := by
    rw [hdb] at hh0mem
    rcases List.mem_append.mp hh0mem with hm | hm
    · exfalso
      rw [hdb] at hdesc
      have hlt : last.timestamp < h0.timestamp := by
        have := List.pairwise_append.mp hdesc
        exact this.2.2 h0 hm last (List.mem_singleton_self _)
      have hle : h0.timestamp ≤ last.timestamp :=
        hmin last (by rw [hdb]; exact List.mem_append_right _ (List.mem_singleton_self _))
      omega
    · simpa using hm
  rw [hs]
  have htake : (h0 :: rest).take 1 = [h0] := rfl
  rw [htake]
  have hmap : ([h0] : List KnowledgeItem).map (fun k => k.id) = [h0.id] := rfl
  rw [hmap]
  have hfilter2 : db.filter (fun k => !([h0.id].contains k.id)) = init := by
    rw [hdb]
    rw [List.filter_append]
    have hinit : init.filter (fun k => !([h0.id].contains k.id)) = init := by
      apply List.filter_eq_self.mpr
      intro k hk
      simp only [List.contains_cons, List.contains_nil, Bool.or_false, Bool.not_eq_true']
      rw [beq_eq_false_iff_ne]
      intro hc
      rw [hdb] at hids
      rw [List.map_append, List.nodup_append] at hids
      have hdisj := hids.2.2 (List.mem_map_of_mem KnowledgeItem.id hk)
      apply hdisj
      rw [hc, hh0]
      simp
    have hlast : [last].filter (fun k => !([h0.id].contains k.id)) = [] := by
      simp [hh0]
    rw [hinit, hlast, List.append_nil]
  rw [hfilter2, hdb, List.dropLast_concat]

/-- Embeds one generateAutoObservation write together with the listener
delivery that follows it, with Firebase available.  The state is the
pair (durable knowledge collection, STATE.knowledgeDB).  The source
runs cleanupAutoObservations, which reassigns only the in-memory
STATE.knowledgeDB — it never calls FirebaseDB.deleteKnowledge and never
calls saveKnowledgeToStorage, so the pruning is not persisted anywhere —
then saveKnowledgeToFirebase adds the new entry to the durable
collection, and the knowledge listener overwrites STATE.knowledgeDB
with the full durable collection, newest first.  The pruned in-memory
list is therefore computed and then discarded. -/
def autoObservationWriteFB (item : KnowledgeItem) (st : List KnowledgeItem × List KnowledgeItem) :
    List KnowledgeItem × List KnowledgeItem :=
  let _pruned := cleanupAutoObservations st.2
  let remote := item :: st.1
  (remote, remote)

/-- A run of k successive auto-observation writes with their listener
deliveries, write n carrying items n, starting from empty stores. -/
def autoObservationRunFB (items : Nat → KnowledgeItem) : Nat → List KnowledgeItem × List KnowledgeItem
  | 0 => ([], [])
  | k + 1 => autoObservationWriteFB (items (k + 1)) (autoObservationRunFB items k)

/-- Helper: appending the next write to the reversed range of earlier
writes. -/
theorem rangeRev_map_succ (items : Nat → KnowledgeItem) (k : Nat) :
    ((List.range' 1 (k + 1)).reverse).map items
      = items (k + 1) :: ((List.range' 1 k).reverse).map items := by
  rw [List.range'_concat]
  simp only [List.reverse_append, List.reverse_cons, List.reverse_nil, List.nil_append,
    List.singleton_append, List.map_cons]
  congr 2
  omega

/-- Helper: every write survives a run — each cycle appends the new item
to the durable collection and re-syncs the in-memory list to it,
discarding the cleanup's pruned list, so nothing is ever removed. -/
theorem autoObservationRunFB_eq (items : Nat → KnowledgeItem) :
    ∀ k, autoObservationRunFB items k
      = (((List.range' 1 k).reverse).map items, ((List.range' 1 k).reverse).map items) := by
  intro k
  induction k with
  | zero => rfl
  | succ k ih =>
    have hstep : autoObservationRunFB items (k + 1)
        = autoObservationWriteFB (items (k + 1)) (autoObservationRunFB items k) := rfl
    rw [hstep, ih, rangeRev_map_succ]
    rfl

/-- Claim C7 fails on the code: after 51 auto-observation writes, the
durable knowledge collection and the re-synced STATE.knowledgeDB both
hold all 51 auto items — 51 entries, not the 50 most recent.
cleanupAutoObservations does compute the correct in-memory prune of the
oldest entry (cleanup_full), but its result is neither deleted from
Firebase nor saved to localStorage, and each listener delivery
overwrites STATE.knowledgeDB with the unpruned collection, so the
write-time cap the spec describes is never enforced on the
collection. -/
theorem C7_cap_not_enforced (items : Nat → KnowledgeItem) :
    (autoObservationRunFB items 51).1 = ((List.range' 1 51).reverse).map items
    ∧ (autoObservationRunFB items 51).2 = ((List.range' 1 51).reverse).map items
    ∧ (autoObservationRunFB items 51).2.length = 51 := by
  have h := autoObservationRunFB_eq items 51
  refine ⟨by rw [h], by rw [h], ?_⟩
  rw [h]
  simp [List.length_map, List.length_reverse, List.length_range']


/-! ## Speech queue enqueue path (src/unnamed/part_001 lines 85-191)

    addToSpeechQueue rejects when voice or sound is off, when the shared
    spoken ledger already holds the id (Firebase when available, else
    the localStorage ledger), when the id was already spoken this
    session, or when the initial-load counter has reached 3; on
    acceptance it bumps the counter (for initial-load items), records
    the id in the session set and the shared ledger, and pushes the item
    onto the queue. -/

structure QItem where
  text : String
  itemId : String
deriving DecidableEq

structure SpeechState where
  voiceEnabled : Bool
  soundEnabled : Bool
  fbAvailable : Bool
  remoteSpoken : List String
  localSpoken : List String
  spokenMessages : List String
  initialLoadCount : Nat
  speechQueue : List QItem
deriving DecidableEq

/-- Embeds wasAlreadySpoken: read the Firebase ledger when available,
else the localStorage ledger. -/
def wasAlreadySpoken (st : SpeechState) (newsId : String) : Bool :=
  if st.fbAvailable then wasSpokenRemote newsId st.remoteSpoken
  else wasSpokenLocal newsId st.localSpoken

/-- Embeds markAsSpoken: write the Firebase ledger when available, else
the localStorage ledger. -/
def markAsSpoken (st : SpeechState) (newsId : String) : SpeechState :=
  if st.fbAvailable then { st with remoteSpoken := markSpokenRemote newsId st.remoteSpoken }
  else { st with localSpoken := markSpokenLocal newsId st.localSpoken }

/-- Embeds addToSpeechQueue: the four rejection checks in source order,
then the acceptance updates. -/
def addToSpeechQueue (text itemId : String) (isInitialLoad : Bool) (st : SpeechState) : SpeechState :=
  if !(st.voiceEnabled && st.soundEnabled) then st
  else if wasAlreadySpoken st itemId then st
  else if itemId ∈ st.spokenMessages then st
  else if isInitialLoad ∧ 3 ≤ st.initialLoadCount then st
  else
    let st1 := if isInitialLoad then { st with initialLoadCount := st.initialLoadCount + 1 } else st
    let st2 := { st1 with spokenMessages := itemId :: st1.spokenMessages }
    let st3 := markAsSpoken st2 itemId
    { st3 with speechQueue := st3.speechQueue ++ [⟨text, itemId⟩] }

structure SpeechReq where
  text : String
  itemId : String
  isInitialLoad : Bool
deriving DecidableEq

/-- A sequence of enqueue attempts in one session. -/
def applyEnqueues (reqs : List SpeechReq) (st : SpeechState) : SpeechState :=
  reqs.foldl (fun s r => addToSpeechQueue r.text r.itemId r.isInitialLoad s) st

/-- Helper: one enqueue either leaves the state unchanged or appends
exactly its item to the queue, bumping the initial-load counter exactly
when the request is an initial-load one, and only from a counter value
below 3. -/
theorem addToSpeechQueue_cases (text itemId : String) (b : Bool) (st : SpeechState) :
    addToSpeechQueue text itemId b st = st
    ∨ ((addToSpeechQueue text itemId b st).speechQueue = st.speechQueue ++ [⟨text, itemId⟩]
        ∧ (addToSpeechQueue text itemId b st).initialLoadCount
            = st.initialLoadCount + (if b then 1 else 0)
        ∧ (b = true → st.initialLoadCount < 3)) := by
  rw [addToSpeechQueue]
  by_cases h1 : !(st.voiceEnabled && st.soundEnabled)
  · rw [if_pos h1]
    exact Or.inl rfl
  · rw [if_neg h1]
    by_cases h2 : wasAlreadySpoken st itemId
    · rw [if_pos h2]
      exact Or.inl rfl
    · rw [if_neg h2]
      by_cases h3 : itemId ∈ st.spokenMessages
      · rw [if_pos h3]
        exact Or.inl rfl
      · rw [if_neg h3]
        by_cases h4 : b = true ∧ 3 ≤ st.initialLoadCount
        · rw [if_pos h4]
          exact Or.inl rfl
        · rw [if_neg h4]
          refine Or.inr ⟨?_, ?_, ?_⟩
          · cases hfb : st.fbAvailable <;> cases b <;> simp [markAsSpoken, hfb]
          · cases hfb : st.fbAvailable <;> cases b <;> simp [markAsSpoken, hfb]
          · intro hb
            rcases Nat.lt_or_ge st.initialLoadCount 3 with h | h
            · exact h
            · exact absurd ⟨hb, h⟩ h4

/-- Helper: for a batch of initial-load requests, the queue grows in
lockstep with the initial-load counter, and the counter never passes 3
(beyond where it already was). -/
theorem applyEnqueues_initial_growth :
    ∀ (reqs : List SpeechReq) (st : SpeechState),
      (∀ r ∈ reqs, r.isInitialLoad = true) →
      (applyEnqueues reqs st).initialLoadCount ≤ max st.initialLoadCount 3
      ∧ (applyEnqueues reqs st).speechQueue.length + st.initialLoadCount
          = st.speechQueue.length + (applyEnqueues reqs st).initialLoadCount := by
  intro reqs
  induction reqs with
  | nil =>
    intro st _
    simp only [applyEnqueues, List.foldl_nil]
    exact ⟨Nat.le_max_left _ _, trivial⟩
  | cons r reqs ih =>
    intro st hall
    have hr : r.isInitialLoad = true := hall r (List.mem_cons_self _ _)
    have hstep : applyEnqueues (r :: reqs) st
        = applyEnqueues reqs (addToSpeechQueue r.text r.itemId r.isInitialLoad st) := rfl
    rw [hstep]
    have htail : ∀ x ∈ reqs, x.isInitialLoad = true :=
      fun x hx => hall x (List.mem_cons_of_mem _ hx)
    rcases addToSpeechQueue_cases r.text r.itemId r.isInitialLoad st with hcase | ⟨hq, hc, hlt⟩
    · rw [hcase]
      exact ih st htail
    · obtain ⟨ih1, ih2⟩ := ih (addToSpeechQueue r.text r.itemId r.isInitialLoad st) htail
      have hql : (addToSpeechQueue r.text r.itemId r.isInitialLoad st).speechQueue.length
          = st.speechQueue.length + 1 := by
        rw [hq]
        simp
      have hc2 : (addToSpeechQueue r.text r.itemId r.isInitialLoad st).initialLoadCount
          = st.initialLoadCount + 1 := by
        rw [hc, hr]
        simp
      have hlt3 : st.initialLoadCount < 3 := hlt hr
      rw [hc2] at ih1 ih2
      rw [hql] at ih2
      constructor
      · omega
      · omega

/-! ## Claim C8: initial-load announcement limit -/

/-- Claim C8: once the session initial-load counter has reached 3, every
initial-load enqueue is a no-op, and from a fresh session (counter 0) a
batch of initial-load enqueues is accepted at most 3 times: the counter
stays at most 3 and the queue gains at most 3 items. -/
theorem C8_initial_load_limit :
    (∀ (st : SpeechState) (text itemId : String),
      3 ≤ st.initialLoadCount → addToSpeechQueue text itemId true st = st)
    ∧ (∀ (st : SpeechState) (reqs : List SpeechReq),
      st.initialLoadCount = 0 → (∀ r ∈ reqs, r.isInitialLoad = true) →
      (applyEnqueues reqs st).initialLoadCount ≤ 3
      ∧ (applyEnqueues reqs st).speechQueue.length ≤ st.speechQueue.length + 3) := by
  constructor
  · intro st text itemId h3
    rw [addToSpeechQueue]
    by_cases h1 : !(st.voiceEnabled && st.soundEnabled)
    · rw [if_pos h1]
    · rw [if_neg h1]
      by_cases h2 : wasAlreadySpoken st itemId
      · rw [if_pos h2]
      · rw [if_neg h2]
        by_cases hm : itemId ∈ st.spokenMessages
        · rw [if_pos hm]
        · rw [if_neg hm]
          rw [if_pos ⟨rfl, h3⟩]
  · intro st reqs h0 hall
    obtain ⟨h1, h2⟩ := applyEnqueues_initial_growth reqs st hall
    rw [h0] at h1 h2
    constructor
    · omega
    · omega

/-- Witness for C8: a saturated counter rejects, and five initial-load
requests from a fresh session yield at most three queue entries. -/
theorem C8_initial_load_limit_witness :
    addToSpeechQueue "t" "i" true ⟨true, true, false, [], [], [], 3, []⟩
        = ⟨true, true, false, [], [], [], 3, []⟩
    ∧ ((applyEnqueues
          [⟨"a", "1", true⟩, ⟨"b", "2", true⟩, ⟨"c", "3", true⟩, ⟨"d", "4", true⟩, ⟨"e", "5", true⟩]
          ⟨true, true, false, [], [], [], 0, []⟩).initialLoadCount ≤ 3
      ∧ (applyEnqueues
          [⟨"a", "1", true⟩, ⟨"b", "2", true⟩, ⟨"c", "3", true⟩, ⟨"d", "4", true⟩, ⟨"e", "5", true⟩]
          ⟨true, true, false, [], [], [], 0, []⟩).speechQueue.length
        ≤ (⟨true, true, false, [], [], [], 0, []⟩ : SpeechState).speechQueue.length + 3) :=
  ⟨C8_initial_load_limit.1 ⟨true, true, false, [], [], [], 3, []⟩ "t" "i" (by decide),
   C8_initial_load_limit.2 ⟨true, true, false, [], [], [], 0, []⟩
     [⟨"a", "1", true⟩, ⟨"b", "2", true⟩, ⟨"c", "3", true⟩, ⟨"d", "4", true⟩, ⟨"e", "5", true⟩]
     rfl (by decide)⟩

/-! ## Claim C10: rejected enqueues are atomic no-ops -/

/-- Claim C10: every rejection branch of addToSpeechQueue returns the
state unchanged — queue, session-spoken set, initial-load counter and
both spoken ledgers are untouched — and a request rejected for disabled
voice (or any reason) stays announceable: a later enqueue in a state
passing all checks appends exactly that item to the queue. -/
theorem C10_reject_atomic :
    (∀ (st : SpeechState) (text itemId : String) (b : Bool),
      (st.voiceEnabled && st.soundEnabled) = false →
      addToSpeechQueue text itemId b st = st)
    ∧ (∀ (st : SpeechState) (text itemId : String) (b : Bool),
      wasAlreadySpoken st itemId = true →
      addToSpeechQueue text itemId b st = st)
    ∧ (∀ (st : SpeechState) (text itemId : String) (b : Bool),
      itemId ∈ st.spokenMessages →
      addToSpeechQueue text itemId b st = st)
    ∧ (∀ (st : SpeechState) (text itemId : String),
      3 ≤ st.initialLoadCount →
      addToSpeechQueue text itemId true st = st)
    ∧ (∀ (st : SpeechState) (text itemId : String) (b : Bool),
      st.voiceEnabled = true → st.soundEnabled = true →
      wasAlreadySpoken st itemId = false → itemId ∉ st.spokenMessages →
      (b = true → st.initialLoadCount < 3) →
      (addToSpeechQueue text itemId b st).speechQueue = st.speechQueue ++ [⟨text, itemId⟩]) := by
  refine ⟨?_, ?_, ?_, ?_, ?_⟩
  · intro st text itemId b h
    rw [addToSpeechQueue, if_pos (by simp [h])]
  · intro st text itemId b h
    rw [addToSpeechQueue]
    by_cases h1 : !(st.voiceEnabled && st.soundEnabled)
    · rw [if_pos h1]
    · rw [if_neg h1, if_pos h]
  · intro st text itemId b h
    rw [addToSpeechQueue]
    by_cases h1 : !(st.voiceEnabled && st.soundEnabled)
    · rw [if_pos h1]
    · rw [if_neg h1]
      by_cases h2 : wasAlreadySpoken st itemId
      · rw [if_pos h2]
      · rw [if_neg h2, if_pos h]
  · intro st text itemId h
    rw [addToSpeechQueue]
    by_cases h1 : !(st.voiceEnabled && st.soundEnabled)
    · rw [if_pos h1]
    · rw [if_neg h1]
      by_cases h2 : wasAlreadySpoken st itemId
      · rw [if_pos h2]
      · rw [if_neg h2]
        by_cases hm : itemId ∈ st.spokenMessages
        · rw [if_pos hm]
        · rw [if_neg hm]
          rw [if_pos ⟨rfl, h⟩]
  · intro st text itemId b hv hs hw hm hlt
    rw [addToSpeechQueue]
    rw [if_neg (by simp [hv, hs])]
    rw [if_neg (by simp [hw])]
    rw [if_neg hm]
    rw [if_neg (by
      intro hc
      obtain ⟨hb, h3⟩ := hc
      have := hlt hb
      omega)]
    cases b <;> cases hfb : st.fbAvailable <;> simp [markAsSpoken, hfb]

/-- Witness for C10 at concrete states hitting each rejection branch and
then a clean acceptance of the same id. -/
theorem C10_reject_atomic_witness :
    addToSpeechQueue "t" "x" false ⟨false, true, false, [], [], [], 0, []⟩
        = ⟨false, true, false, [], [], [], 0, []⟩
    ∧ addToSpeechQueue "t" "x" false ⟨true, true, false, [], ["x"], [], 0, []⟩
        = ⟨true, true, false, [], ["x"], [], 0, []⟩
    ∧ addToSpeechQueue "t" "x" false ⟨true, true, false, [], [], ["x"], 0, []⟩
        = ⟨true, true, false, [], [], ["x"], 0, []⟩
    ∧ addToSpeechQueue "t" "x" true ⟨true, true, false, [], [], [], 3, []⟩
        = ⟨true, true, false, [], [], [], 3, []⟩
    ∧ (addToSpeechQueue "t" "x" false ⟨true, true, false, [], [], [], 0, []⟩).speechQueue
        = (⟨true, true, false, [], [], [], 0, []⟩ : SpeechState).speechQueue ++ [⟨"t", "x"⟩] :=
  ⟨C10_reject_atomic.1 ⟨false, true, false, [], [], [], 0, []⟩ "t" "x" false (by decide),
   C10_reject_atomic.2.1 ⟨true, true, false, [], ["x"], [], 0, []⟩ "t" "x" false (by decide),
   C10_reject_atomic.2.2.1 ⟨true, true, false, [], [], ["x"], 0, []⟩ "t" "x" false (by decide),
   C10_reject_atomic.2.2.2.1 ⟨true, true, false, [], [], [], 3, []⟩ "t" "x" (by decide),
   C10_reject_atomic.2.2.2.2 ⟨true, true, false, [], [], [], 0, []⟩ "t" "x" false rfl rfl
     (by decide) (by decide) (fun hc => by cases hc)⟩

/-! ## Speech queue worker (src/unnamed/part_001 lines 201-240 and the
    voice toggle at 1516-1545)

    processQueue loops: at the top of each iteration it re-reads the
    voice and sound preferences and, if either is off, clears the queue
    and stops; otherwise it shifts the front item, awaits the speak
    capability to full completion, then awaits a fixed 2000 ms pause.
    The embedding runs the loop over the queue contents, sampling the
    preference at each iteration boundary (the only points where the
    single-threaded toggle handler can interleave), with dur n the
    duration of the n-th utterance; it emits the timed speak events. -/

structure SpeakEvent where
  itemId : String
  text : String
  startT : Nat
  finishT : Nat
deriving DecidableEq

/-- Embeds the processQueue worker loop: enabled n samples
voiceEnabled && soundEnabled at the top of iteration n, dur n is how
long the n-th speak call takes, and times are in milliseconds. -/
def processQueue (dur : Nat → Nat) (enabled : Nat → Bool) : Nat → Nat → List QItem → List SpeakEvent
  | _, _, [] => []
  | t, n, i :: rest =>
    if enabled n then
      ⟨i.itemId, i.text, t, t + dur n⟩ :: processQueue dur enabled (t + dur n + 2000) (n + 1) rest
    else []

/-- Helper: the head event of a worker run, when there is one, starts at
the time the run was entered. -/
theorem processQueue_head_start (dur : Nat → Nat) (enabled : Nat → Bool) :
    ∀ (q : List QItem) (t n : Nat) (e : SpeakEvent),
      e ∈ (processQueue dur enabled t n q).head? → e.startT = t := by
  intro q t n e he
  cases q with
  | nil =>
    simp [processQueue] at he
  | cons i rest =>
    rw [processQueue] at he
    by_cases hen : enabled n
    · rw [if_pos hen] at he
      simp only [List.head?_cons, Option.mem_def, Option.some.injEq] at he
      rw [← he]
    · rw [if_neg hen] at he
      simp at he

/-- Helper: consecutive speak events are separated by exactly the fixed
2000 ms pause: each next utterance starts 2000 ms after the previous
one finished. -/
theorem processQueue_chain (dur : Nat → Nat) (enabled : Nat → Bool) :
    ∀ (q : List QItem) (t n : Nat),
      List.Chain' (fun a b => b.startT = a.finishT + 2000) (processQueue dur enabled t n q) := by
  intro q
  induction q with
  | nil =>
    intro t n
    simp [processQueue]
  | cons i rest ih =>
    intro t n
    rw [processQueue]
    by_cases hen : enabled n
    · rw [if_pos hen]
      rw [List.chain'_cons']
      refine ⟨?_, ih _ _⟩
      intro b hb
      rw [processQueue_head_start dur enabled rest _ _ b hb]
    · rw [if_neg hen]
      simp

/-- Helper: the k-th speak event of a run entered at utterance index n
runs for its full duration dur (n + k). -/
theorem processQueue_duration (dur : Nat → Nat) (enabled : Nat → Bool) :
    ∀ (q : List QItem) (t n k : Nat) (e : SpeakEvent),
      (processQueue dur enabled t n q).get? k = some e →
      e.finishT = e.startT + dur (n + k) := by
  intro q
  induction q with
  | nil =>
    intro t n k e he
    simp [processQueue] at he
  | cons i rest ih =>
    intro t n k e he
    rw [processQueue] at he
    by_cases hen : enabled n
    · rw [if_pos hen] at he
      cases k with
      | zero =>
        simp only [List.get?_cons_zero, Option.some.injEq] at he
        rw [← he]
        simp
      | succ k =>
        rw [List.get?_cons_succ] at he
        have hrec := ih _ _ k e he
        have harg : n + 1 + k = n + (k + 1) := by omega
        rw [harg] at hrec
        exact hrec
    · rw [if_neg hen] at he
      simp at he

/-- Helper: once the preference reads disabled, the worker speaks
nothing further. -/
theorem processQueue_disabled (dur : Nat → Nat) (enabled : Nat → Bool)
    (q : List QItem) (t n : Nat) (h : enabled n = false) :
    processQueue dur enabled t n q = [] := by
  cases q with
  | nil => rfl
  | cons i rest =>
    rw [processQueue, if_neg (by simp [h])]

/-- Helper: with the preference enabled throughout, the worker speaks
exactly the queued items, in order. -/
theorem processQueue_map_ids (dur : Nat → Nat) (enabled : Nat → Bool)
    (hall : ∀ m, enabled m = true) :
    ∀ (q : List QItem) (t n : Nat),
      (processQueue dur enabled t n q).map (fun e => e.itemId) = q.map (fun i => i.itemId) := by
  intro q
  induction q with
  | nil =>
    intro t n
    rfl
  | cons i rest ih =>
    intro t n
    rw [processQueue, if_pos (by simp [hall n])]
    simp only [List.map_cons]
    rw [ih]

/-- Claim C2: with voice enabled throughout, a run over the queue speaks
every queued item exactly once, in order (for a 5-item queue, exactly 5
speak invocations), strictly sequentially with each next start exactly
2000 ms after the previous finish (a pause of at least 2 seconds), each
utterance running to its full duration; and when the preference is
disabled after the 2nd utterance has started (observed at the next
iteration boundary), the 2nd speak call still runs to its full
duration, and the remaining queued items are dropped and never spoken. -/
theorem C2_queue_sequential_speech :
    (∀ (dur : Nat → Nat) (en : Nat → Bool) (t0 : Nat) (q : List QItem),
      (∀ m, en m = true) →
      ((processQueue dur en t0 0 q).map (fun e => e.itemId) = q.map (fun i => i.itemId)
        ∧ List.Chain' (fun a b => b.startT = a.finishT + 2000) (processQueue dur en t0 0 q)
        ∧ ∀ (k : Nat) (e : SpeakEvent),
            (processQueue dur en t0 0 q).get? k = some e →
            e.finishT = e.startT + dur k))
    ∧ (∀ (dur : Nat → Nat) (en : Nat → Bool) (t0 : Nat) (a b : QItem) (rest : List QItem),
      en 0 = true → en 1 = true → (∀ m, 2 ≤ m → en m = false) →
      processQueue dur en t0 0 (a :: b :: rest)
        = [⟨a.itemId, a.text, t0, t0 + dur 0⟩,
           ⟨b.itemId, b.text, t0 + dur 0 + 2000, t0 + dur 0 + 2000 + dur 1⟩]) := by
  constructor
  · intro dur en t0 q hall
    refine ⟨processQueue_map_ids dur en hall q t0 0, processQueue_chain dur en q t0 0, ?_⟩
    intro k e he
    have := processQueue_duration dur en q t0 0 k e he
    simpa using this
  · intro dur en t0 a b rest h0 h1 h2
    rw [processQueue, if_pos (by simp [h0])]
    rw [processQueue, if_pos (by simp [h1])]
    rw [processQueue_disabled dur en rest _ 2 (h2 2 (by omega))]

/-- Concrete utterance durations for the C2 witness. -/
def durW : Nat → Nat := fun n => 1000 + n

/-- Preference that stays enabled for the whole run. -/
def enAlwaysOn : Nat → Bool := fun _ => true

/-- Preference that is disabled from the third iteration boundary on
(the toggle fires while the 2nd utterance is playing). -/
def enOffAfterTwo : Nat → Bool := fun n => decide (n < 2)

/-- Witness for C2 at a concrete 5-item queue. -/
theorem C2_queue_sequential_speech_witness :
    ((processQueue durW enAlwaysOn 0 0
        [⟨"t1", "i1"⟩, ⟨"t2", "i2"⟩, ⟨"t3", "i3"⟩, ⟨"t4", "i4"⟩, ⟨"t5", "i5"⟩]).map (fun e => e.itemId)
      = ([⟨"t1", "i1"⟩, ⟨"t2", "i2"⟩, ⟨"t3", "i3"⟩, ⟨"t4", "i4"⟩, ⟨"t5", "i5"⟩] : List QItem).map (fun i => i.itemId))
    ∧ List.Chain' (fun a b => b.startT = a.finishT + 2000)
        (processQueue durW enAlwaysOn 0 0
          [⟨"t1", "i1"⟩, ⟨"t2", "i2"⟩, ⟨"t3", "i3"⟩, ⟨"t4", "i4"⟩, ⟨"t5", "i5"⟩])
    ∧ (⟨"i2", "t2", 3000, 4001⟩ : SpeakEvent).finishT
        = (⟨"i2", "t2", 3000, 4001⟩ : SpeakEvent).startT + durW 1
    ∧ processQueue durW enOffAfterTwo 0 0
        [⟨"t1", "i1"⟩, ⟨"t2", "i2"⟩, ⟨"t3", "i3"⟩, ⟨"t4", "i4"⟩, ⟨"t5", "i5"⟩]
      = [⟨"i1", "t1", 0, 1000⟩, ⟨"i2", "t2", 3000, 4001⟩] :=
  ⟨(C2_queue_sequential_speech.1 durW enAlwaysOn 0
      [⟨"t1", "i1"⟩, ⟨"t2", "i2"⟩, ⟨"t3", "i3"⟩, ⟨"t4", "i4"⟩, ⟨"t5", "i5"⟩] (fun _ => rfl)).1,
   (C2_queue_sequential_speech.1 durW enAlwaysOn 0
      [⟨"t1", "i1"⟩, ⟨"t2", "i2"⟩, ⟨"t3", "i3"⟩, ⟨"t4", "i4"⟩, ⟨"t5", "i5"⟩] (fun _ => rfl)).2.1,
   (C2_queue_sequential_speech.1 durW enAlwaysOn 0
      [⟨"t1", "i1"⟩, ⟨"t2", "i2"⟩, ⟨"t3", "i3"⟩, ⟨"t4", "i4"⟩, ⟨"t5", "i5"⟩] (fun _ => rfl)).2.2
      1 ⟨"i2", "t2", 3000, 4001⟩ (by decide),
   C2_queue_sequential_speech.2 durW enOffAfterTwo 0 ⟨"t1", "i1"⟩ ⟨"t2", "i2"⟩
      [⟨"t3", "i3"⟩, ⟨"t4", "i4"⟩, ⟨"t5", "i5"⟩] rfl rfl
      (by
        intro m hm
        simp only [enOffAfterTwo, decide_eq_false_iff_not]
        omega)⟩

/-! ## Change-event demultiplexer (src/firebase.js lines 109-143,
    src/unnamed/part_001 lines 482-548)

    listenToKnowledgeWithChanges hands each snapshot plus the store's
    per-document change classification to the handler in
    initFirebaseListeners; the handler's isFirstLoad flag makes the very
    first delivery render the bulk snapshot only, ignoring the change
    list, and every later delivery processes the classified changes.
    The store's classification is the id-diff of the delivered snapshot
    against the previously known one: a document is added when its id is
    new, removed when its id is gone, modified when its id persists but
    its data changed. -/

structure DocChanges where
  added : List KnowledgeDoc
  modified : List KnowledgeDoc
  removed : List KnowledgeDoc
deriving DecidableEq

/-- Embeds snapshot.docChanges(): classify the delivered snapshot
against the previously known one by document id. -/
def docChanges (old new : List KnowledgeDoc) : DocChanges :=
  { added := new.filter (fun x => !(old.any (fun y => y.id == x.id))),
    modified := new.filter (fun x => old.any (fun y => y.id == x.id && !(y == x))),
    removed := old.filter (fun y => !(new.any (fun x => x.id == y.id))) }

structure DemuxState where
  isFirstLoad : Bool
  known : List KnowledgeDoc
deriving DecidableEq

structure DemuxOutput where
  snapshot : List KnowledgeDoc
  isInitialLoad : Bool
  changes : DocChanges
deriving DecidableEq

/-- Embeds one snapshot delivery through listenToKnowledgeWithChanges
and the initFirebaseListeners handler: the first delivery emits the bulk
snapshot tagged as initial load with no per-item events; later
deliveries emit the snapshot plus the classified diff. -/
def demuxDeliver (st : DemuxState) (snapshot : List KnowledgeDoc) : DemuxOutput × DemuxState :=
  if st.isFirstLoad then
    (⟨snapshot, true, ⟨[], [], []⟩⟩, ⟨false, snapshot⟩)
  else
    (⟨snapshot, false, docChanges st.known snapshot⟩, ⟨false, snapshot⟩)

/-- State of a fresh subscription. -/
def demuxInit : DemuxState := ⟨true, []⟩

/-- Claim C3: the first delivery of a subscription emits only the full
snapshot tagged as initial load, with no per-item added, modified or
removed events; a second delivery that appends exactly one item with a
fresh id to the (id-distinct) first snapshot is classified as
added = [newItem], modified = [], removed = []. -/
theorem C3_demux_initial_then_incremental :
    (∀ (s : List KnowledgeDoc),
      (demuxDeliver demuxInit s).1 = ⟨s, true, ⟨[], [], []⟩⟩)
    ∧ (∀ (s : List KnowledgeDoc) (newItem : KnowledgeDoc),
      (s.map KnowledgeDoc.id).Nodup →
      newItem.id ∉ s.map KnowledgeDoc.id →
      (demuxDeliver (demuxDeliver demuxInit s).2 (s ++ [newItem])).1
        = ⟨s ++ [newItem], false, ⟨[newItem], [], []⟩⟩) := by
  constructor
  · intro s
    rfl
  · intro s newItem hnodup hfresh
    have hadded : (s ++ [newItem]).filter (fun x => !(s.any (fun y => y.id == x.id))) = [newItem] := by
      rw [List.filter_append]
      have h1 : s.filter (fun x => !(s.any (fun y => y.id == x.id))) = [] := by
        rw [List.filter_eq_nil_iff]
        intro x hx
        simp only [Bool.not_eq_true', Bool.not_eq_false]
        rw [List.any_eq_true]
        exact ⟨x, hx, beq_self_eq_true _⟩
      have h2 : [newItem].filter (fun x => !(s.any (fun y => y.id == x.id))) = [newItem] := by
        rw [List.filter_eq_self]
        intro x hx
        rw [List.mem_singleton] at hx
        subst hx
        simp only [Bool.not_eq_true']
        rw [List.any_eq_false]
        intro y hy
        intro hc
        rw [beq_iff_eq] at hc
        apply hfresh
        rw [← hc]
        exact List.mem_map_of_mem _ hy
      rw [h1, h2, List.nil_append]
    have hmodified : (s ++ [newItem]).filter (fun x => s.any (fun y => y.id == x.id && !(y == x))) = [] := by
      rw [List.filter_eq_nil_iff]
      intro x hx
      rw [Bool.not_eq_true]
      rw [List.any_eq_false]
      intro y hy
      rcases List.mem_append.mp hx with hxs | hxn
      · intro hc
        rw [Bool.and_eq_true] at hc
        obtain ⟨hid, hne⟩ := hc
        rw [beq_iff_eq] at hid
        have hyx : y = x := List.inj_on_of_nodup_map hnodup hy hxs hid
        rw [hyx] at hne
        simp at hne
      · rw [List.mem_singleton] at hxn
        subst hxn
        intro hc
        rw [Bool.and_eq_true] at hc
        obtain ⟨hid, _⟩ := hc
        rw [beq_iff_eq] at hid
        apply hfresh
        rw [← hid]
        exact List.mem_map_of_mem _ hy
    have hremoved : s.filter (fun y => !((s ++ [newItem]).any (fun x => x.id == y.id))) = [] := by
      rw [List.filter_eq_nil_iff]
      intro y hy
      simp only [Bool.not_eq_true', Bool.not_eq_false]
      rw [List.any_eq_true]
      exact ⟨y, List.mem_append_left _ hy, beq_self_eq_true _⟩
    have hchanges : docChanges s (s ++ [newItem]) = ⟨[newItem], [], []⟩ := by
      rw [docChanges, hadded, hmodified, hremoved]
    show (⟨s ++ [newItem], false, docChanges s (s ++ [newItem])⟩ : DemuxOutput)
        = ⟨s ++ [newItem], false, ⟨[newItem], [], []⟩⟩
    rw [hchanges]

/-- Witness for C3 at a one-item first snapshot followed by one new
item. -/
theorem C3_demux_initial_then_incremental_witness :
    (demuxDeliver demuxInit [⟨"a", "T", "C", "KNOWLEDGE", "S", 1, false⟩]).1
      = ⟨[⟨"a", "T", "C", "KNOWLEDGE", "S", 1, false⟩], true, ⟨[], [], []⟩⟩
    ∧ (demuxDeliver (demuxDeliver demuxInit [⟨"a", "T", "C", "KNOWLEDGE", "S", 1, false⟩]).2
        ([⟨"a", "T", "C", "KNOWLEDGE", "S", 1, false⟩] ++ [⟨"b", "T2", "C2", "NEWS", "S2", 2, false⟩])).1
      = ⟨[⟨"a", "T", "C", "KNOWLEDGE", "S", 1, false⟩] ++ [⟨"b", "T2", "C2", "NEWS", "S2", 2, false⟩],
         false, ⟨[⟨"b", "T2", "C2", "NEWS", "S2", 2, false⟩], [], []⟩⟩ :=
  ⟨C3_demux_initial_then_incremental.1 [⟨"a", "T", "C", "KNOWLEDGE", "S", 1, false⟩],
   C3_demux_initial_then_incremental.2 [⟨"a", "T", "C", "KNOWLEDGE", "S", 1, false⟩]
     ⟨"b", "T2", "C2", "NEWS", "S2", 2, false⟩ (by decide) (by decide)⟩

end MrTank
